import Mathlib

/-!
Shallow embedding of `src/src/lib.rs` (maolonglong/lock_free_queue.rs):
a Michael–Scott lock-free FIFO queue.

Memory model: nodes live in a heap modelled as a list; an address is an
index into that list.  Allocation (`Owned::new`) appends a node at the end
of the list and never reuses addresses; `defer_destroy` (epoch-based
retirement) leaves the node bytes in place until reclamation, so retired
nodes simply stay in the list and are no longer reachable from `head`.
`MaybeUninit<T>` is modelled as `Option T`: `none` is an uninitialized
slot, and `assume_init_read` moves the payload out, leaving the slot
logically uninitialized (reading a `none` slot is undefined behaviour).

The embedding describes the sequential (single-thread, uncontended)
executions of the code: inside one call no other thread runs, so every
re-read check in the CAS loops sees an unchanged value and every CAS whose
expected value was just read succeeds.  The CAS retry loops are given
explicit fuel; a `none` result of `push`/`pop` means the call would
diverge or perform an undefined memory access (dangling dereference or a
read of an uninitialized payload) — it never happens on reachable states,
which is itself one of the verified properties.

The `len` field is a `usize`; a node costs at least 16 bytes of a 2^64
byte address space, so fewer than 2^64 nodes can be live and the counter
can never wrap in a sequential execution.  It is therefore modelled as an
unbounded `Nat`.
-/

/-- `struct Node<T> { elem: MaybeUninit<T>, next: Link<T> }`.
`elem = none` models an uninitialized `MaybeUninit` slot; `next = none`
models a null `Atomic` link, `next = some a` a pointer to address `a`. -/
structure Node (T : Type) where
  elem : Option T
  next : Option Nat
  deriving Repr, DecidableEq

namespace Node

/-- `Node::new(elem)`: initialized payload, null next pointer. -/
def new (elem : T) : Node T :=
  { elem := some elem, next := none }

/-- `Node::dummy()`: uninitialized payload, null next pointer. -/
def dummy : Node T :=
  { elem := none, next := none }

end Node

/-- `struct LockFreeQueue<T> { head: Link<T>, tail: Link<T>, len: AtomicUsize }`
together with the heap of nodes the two links point into.  `head` and
`tail` are addresses (indices into `heap`). -/
structure LockFreeQueue (T : Type) where
  heap : List (Node T)
  head : Nat
  tail : Nat
  len : Nat
  deriving Repr, DecidableEq

namespace LockFreeQueue

variable {T : Type}

/-- `LockFreeQueue::new()`: one dummy sentinel node, `head` and `tail`
both referencing it, `len == 0`. -/
def new : LockFreeQueue T :=
  { heap := [Node.dummy], head := 0, tail := 0, len := 0 }

/-- `LockFreeQueue::len()`: a load of the `len` counter. -/
def length (q : LockFreeQueue T) : Nat :=
  q.len

/-- `LockFreeQueue::is_empty()`: defined in the source as `self.len() == 0`. -/
def is_empty (q : LockFreeQueue T) : Bool :=
  q.length == 0

/-- One-step-at-a-time unrolling of the `loop` in `push`, after the new
node has already been allocated at address `newAddr`.  Each fuel unit is
one loop iteration.  Sequentially the re-read of `self.tail` is unchanged
and both CASes whose expected value was just loaded succeed.
Returns `none` on fuel exhaustion (divergence) or a dangling `tail`
dereference (undefined behaviour). -/
def pushLoop : Nat → LockFreeQueue T → Nat → Option (LockFreeQueue T)
  | 0, _, _ => none
  | fuel + 1, q, newAddr =>
    match q.heap[q.tail]? with
    | none => none
    | some tailNode =>
      -- re-read of self.tail: unchanged in a sequential execution
      match tailNode.next with
      | none =>
        -- CAS tail.next: null -> newAddr succeeds (it was just read as null);
        -- then the best-effort CAS of self.tail: tail -> newAddr succeeds
        -- (self.tail still holds the value read at the top of the loop);
        -- then len.fetch_add(1).
        some { q with
                heap := q.heap.set q.tail { tailNode with next := some newAddr },
                tail := newAddr,
                len := q.len + 1 }
      | some nxt =>
        -- tail lags: help by CASing self.tail forward (succeeds), retry
        pushLoop fuel { q with tail := nxt } newAddr

/-- `LockFreeQueue::push(elem)`: allocate `Owned::new(Node::new(elem))`
(at the next fresh address, i.e. the end of the heap), then run the CAS
loop.  The fuel `q.heap.length + 2` is enough for any acyclic chain. -/
def push (q : LockFreeQueue T) (elem : T) : Option (LockFreeQueue T) :=
  let newAddr := q.heap.length
  pushLoop (q.heap.length + 2) { q with heap := q.heap ++ [Node.new elem] } newAddr

/-- One-step-at-a-time unrolling of the `loop` in `pop`.  Sequentially the
re-read of `self.head` is unchanged and every CAS whose expected value was
just loaded succeeds.  Returns `none` on fuel exhaustion (divergence), a
dangling dereference, or a read of an uninitialized payload (undefined
behaviour).  On the success path the old sentinel is retired
(`defer_destroy`: its bytes stay in the heap, it is merely no longer
reachable from `head`) and `assume_init_read` moves the payload out of the
new sentinel, leaving that slot logically uninitialized. -/
def popLoop : Nat → LockFreeQueue T → Option (Option T × LockFreeQueue T)
  | 0, _ => none
  | fuel + 1, q =>
    match q.heap[q.head]? with
    | none => none
    | some headNode =>
      -- head, tail, head.next are read, then self.head is re-read: unchanged
      if q.head = q.tail then
        match headNode.next with
        | none => some (none, q)  -- empty queue
        | some hn =>
          -- tail lags: help by CASing self.tail forward (succeeds), retry
          popLoop fuel { q with tail := hn }
      else
        match headNode.next with
        | none => none  -- CAS head -> null, then a null dereference: undefined
        | some hn =>
          match q.heap[hn]? with
          | none => none  -- dangling head_next: undefined
          | some nextNode =>
            match nextNode.elem with
            | none => none  -- assume_init_read of an uninitialized slot: undefined
            | some v =>
              -- CAS head: head -> head_next succeeds; defer_destroy(head);
              -- assume_init_read moves the payload out; len.fetch_sub(1).
              some (some v,
                { q with
                    heap := q.heap.set hn { nextNode with elem := none },
                    head := hn,
                    len := q.len - 1 })

/-- `LockFreeQueue::pop()`: run the CAS loop.  The fuel
`q.heap.length + 2` is enough for any acyclic chain. -/
def pop (q : LockFreeQueue T) : Option (Option T × LockFreeQueue T) :=
  popLoop (q.heap.length + 2) q

/-- Push a whole list of elements in order (each call a separate `push`). -/
def pushList (q : LockFreeQueue T) (vs : List T) : Option (LockFreeQueue T) :=
  vs.foldlM push q

/-- Perform `n` consecutive `pop` calls, collecting the returned values. -/
def popN : Nat → LockFreeQueue T → Option (List (Option T) × LockFreeQueue T)
  | 0, q => some ([], q)
  | n + 1, q =>
    (pop q).bind fun rq =>
      (popN n rq.2).map fun rsq => (rq.1 :: rsq.1, rsq.2)

/-- The addresses reachable from address `a` by following `next` links,
fuel-bounded.  `none` means a dangling link or a cycle (the walk does not
terminate within `fuel` steps). -/
def chainFrom (heap : List (Node T)) : Nat → Nat → Option (List Nat)
  | 0, _ => none
  | fuel + 1, a =>
    match heap[a]? with
    | none => none
    | some n =>
      match n.next with
      | none => some [a]
      | some b => (chainFrom heap fuel b).map (a :: ·)

/-- The chain of node addresses currently reachable from `head`.  An
acyclic chain has pairwise distinct addresses, hence length at most
`heap.length`, so fuel `heap.length` suffices exactly when the chain is
finite. -/
def chain (q : LockFreeQueue T) : Option (List Nat) :=
  chainFrom q.heap q.heap.length q.head

/-- The number of elements currently in the queue: the nodes of the chain
other than the sentinel. -/
def count (q : LockFreeQueue T) : Nat :=
  match chain q with
  | some addrs => addrs.length - 1
  | none => 0

/-- The payload of the logically first element: the payload stored in the
node right after the sentinel. -/
def firstElem (q : LockFreeQueue T) : Option T :=
  match chain q with
  | some (_ :: a :: _) => (q.heap[a]?).bind Node.elem
  | _ => none

/-- Decidable check of the structural invariant: the chain from `head` is
a valid, finite (hence acyclic) singly-linked list of pairwise distinct
addresses; `tail` lies on it (so `head` structurally precedes or equals
`tail`); the node `head` references is the unique sentinel (uninitialized
payload) and every other chain node holds a valid payload. -/
def invCheck (q : LockFreeQueue T) : Bool :=
  match chain q with
  | none => false
  | some [] => false
  | some (a0 :: rest) =>
    decide (a0 = q.head) &&
    decide (q.tail ∈ a0 :: rest) &&
    decide ((a0 :: rest).Nodup) &&
    (match q.heap[a0]? with
     | some n => n.elem.isNone
     | none => false) &&
    rest.all fun a =>
      match q.heap[a]? with
      | some n => n.elem.isSome
      | none => false

/-- The states reachable from `new` by a sequence of completed `push` and
`pop` calls in a sequential execution. -/
inductive Reachable : LockFreeQueue T → Prop
  | new : Reachable new
  | push {q q' : LockFreeQueue T} {v : T} :
      Reachable q → push q v = some q' → Reachable q'
  | pop {q q' : LockFreeQueue T} {r : Option T} :
      Reachable q → pop q = some (r, q') → Reachable q'

/-- The canonical shape of a sequential state after pushing the values
`vs` (in order) and popping `k` of them, `k ≤ vs.length`: the heap holds
the dummy node at address `0` and the node of the `i`-th pushed value at
address `i`; node `i` links to node `i + 1` and the last node has a null
link; the payloads of the dummy and of the `k` popped nodes have been
consumed; `head` is the `k`-th node (the current sentinel), `tail` the
last node. -/
def seqState (vs : List T) (k : Nat) : LockFreeQueue T :=
  { heap := (List.range (vs.length + 1)).map fun i =>
      { elem := if i ≤ k then none else vs[i - 1]?,
        next := if i = vs.length then none else some (i + 1) },
    head := k,
    tail := vs.length,
    len := vs.length - k }

end LockFreeQueue

attribute [ext] Node LockFreeQueue
namespace LockFreeQueue
variable {T : Type}

theorem pushLoop_done {q : LockFreeQueue T} {a fuel : Nat} {tn : Node T}
    (h1 : q.heap[q.tail]? = some tn) (h2 : tn.next = none) :
    pushLoop (fuel + 1) q a =
      some { q with heap := q.heap.set q.tail { tn with next := some a },
                    tail := a, len := q.len + 1 } := by
  simp only [pushLoop, h1, h2]

theorem seqState_heap_length (vs : List T) (k : Nat) :
    (seqState vs k).heap.length = vs.length + 1 := by
  simp [seqState]

theorem seqState_getElem (vs : List T) (k i : Nat) (h : i ≤ vs.length) :
    (seqState vs k).heap[i]? =
      some { elem := if i ≤ k then none else vs[i - 1]?,
             next := if i = vs.length then none else some (i + 1) } := by
  simp only [seqState, List.getElem?_map, List.getElem?_range (by omega : i < vs.length + 1),
    Option.map_some']

theorem push_seqState (vs : List T) (k : Nat) (v : T) (h : k ≤ vs.length) :
    push (seqState vs k) v = some (seqState (vs ++ [v]) k) := by
  have hlen := seqState_heap_length vs k
  rw [push, hlen]
  have h1 : ((seqState vs k).heap ++ [Node.new v])[({ seqState vs k with
      heap := (seqState vs k).heap ++ [Node.new v] } : LockFreeQueue T).tail]? =
      some { elem := if vs.length ≤ k then none else vs[vs.length - 1]?,
             next := (none : Option Nat) } := by
    show ((seqState vs k).heap ++ [Node.new v])[vs.length]? = _
    rw [List.getElem?_append_left (by omega), seqState_getElem vs k vs.length (le_refl _)]
    simp
  rw [pushLoop_done h1 rfl]
  congr 1
  ext1
  · -- heap
    show (((seqState vs k).heap ++ [Node.new v]).set vs.length _) = _
    apply List.ext_getElem?
    intro n
    rw [List.getElem?_set]
    rcases Nat.lt_trichotomy n vs.length with hc | hc | hc
    · rw [if_neg (by omega), List.getElem?_append_left (by omega),
        seqState_getElem vs k n (by omega), seqState_getElem (vs ++ [v]) k n (by simp; omega)]
      simp only [Option.some.injEq, Node.mk.injEq]
      refine ⟨?_, ?_⟩
      · by_cases hk : n ≤ k
        · rw [if_pos hk, if_pos hk]
        · rw [if_neg hk, if_neg hk, List.getElem?_append_left (by omega)]
      · rw [if_neg (by omega), if_neg (by simp; omega)]
    · rw [hc, if_pos rfl, if_pos (by rw [List.length_append, seqState_heap_length]; omega),
        seqState_getElem (vs ++ [v]) k vs.length (by simp)]
      simp only [Option.some.injEq, Node.mk.injEq]
      refine ⟨?_, ?_⟩
      · by_cases hk : vs.length ≤ k
        · rw [if_pos hk, if_pos hk]
        · rw [if_neg hk, if_neg hk, List.getElem?_append_left (by omega)]
      · rw [if_neg (by simp)]
    · by_cases hc2 : n = vs.length + 1
      · rw [if_neg (by omega), hc2, List.getElem?_append_right (by rw [seqState_heap_length]),
          seqState_heap_length, Nat.sub_self,
          seqState_getElem (vs ++ [v]) k (vs.length + 1) (by simp)]
        rw [if_neg (by omega), if_pos (by simp)]
        show some (Node.new v) = _
        rw [Nat.add_sub_cancel, List.getElem?_concat_length]
        rfl
      · rw [if_neg (by omega),
          List.getElem?_eq_none (by rw [List.length_append, seqState_heap_length]; simp; omega),
          List.getElem?_eq_none (by rw [seqState_heap_length]; simp; omega)]
  · show k = _
    simp [seqState]
  · show vs.length + 1 = _
    simp [seqState]
  · show (seqState vs k).len + 1 = _
    simp [seqState]
    omega
end LockFreeQueue
namespace LockFreeQueue
variable {T : Type}

theorem popLoop_empty {q : LockFreeQueue T} {fuel : Nat} {m : Node T}
    (h1 : q.heap[q.head]? = some m) (h2 : q.head = q.tail) (h3 : m.next = none) :
    popLoop (fuel + 1) q = some (none, q) := by
  simp only [popLoop, h1, if_pos h2, h3]

theorem popLoop_success {q : LockFreeQueue T} {fuel : Nat} {a b : Node T} {n : Nat}
    {v : T} (h1 : q.heap[q.head]? = some a) (h2 : ¬ q.head = q.tail)
    (h3 : a.next = some n) (h4 : q.heap[n]? = some b) (h5 : b.elem = some v) :
    popLoop (fuel + 1) q =
      some (some v, { q with heap := q.heap.set n { b with elem := none },
                             head := n, len := q.len - 1 }) := by
  simp only [popLoop, h1, if_neg h2, h3, h4, h5]

theorem pop_empty {q : LockFreeQueue T} {m : Node T}
    (h1 : q.heap[q.head]? = some m) (h2 : q.head = q.tail) (h3 : m.next = none) :
    pop q = some (none, q) := by
  show popLoop (q.heap.length + 1 + 1) q = _
  rw [popLoop_empty h1 h2 h3]

theorem pop_seqState_end (vs : List T) :
    pop (seqState vs vs.length) = some (none, seqState vs vs.length) := by
  have h1 := seqState_getElem vs vs.length vs.length (le_refl _)
  exact pop_empty h1 rfl (by simp)

theorem pop_seqState_lt (vs : List T) (k : Nat) (h : k < vs.length) :
    pop (seqState vs k) = some (vs[k]?, seqState vs (k + 1)) := by
  have h1 := seqState_getElem vs k k (by omega : k ≤ vs.length)
  have h2 : ¬ (seqState vs k).head = (seqState vs k).tail := by
    show ¬ k = vs.length
    omega
  have h3 : ({ elem := (if k ≤ k then none else (vs[k - 1]?)),
               next := (if k = vs.length then none else some (k + 1)) } : Node T).next
      = some (k + 1) := by
    show (if k = vs.length then (none : Option Nat) else some (k + 1)) = some (k + 1)
    rw [if_neg (by omega)]
  have h4 := seqState_getElem vs k (k + 1) (by omega : k + 1 ≤ vs.length)
  have h5 : ({ elem := (if k + 1 ≤ k then none else (vs[k]?)),
               next := (if k + 1 = vs.length then none else some (k + 2)) } : Node T).elem
      = some vs[k] := by
    show (if k + 1 ≤ k then none else vs[k]?) = some vs[k]
    rw [if_neg (by omega), List.getElem?_eq_getElem h]
  show popLoop ((seqState vs k).heap.length + 1 + 1) _ = _
  rw [popLoop_success h1 h2 h3 h4 h5, List.getElem?_eq_getElem h]
  congr 1
  congr 1
  ext1
  · -- heap
    show (seqState vs k).heap.set (k + 1) _ = _
    apply List.ext_getElem?
    intro n
    rw [List.getElem?_set]
    by_cases hn : k + 1 = n
    · rw [if_pos hn, if_pos (by rw [seqState_heap_length]; omega), ← hn,
        seqState_getElem vs (k + 1) (k + 1) (by omega)]
      simp only [Option.some.injEq, Node.mk.injEq]
      refine ⟨by rw [if_pos (le_refl _)], by simp⟩
    · rw [if_neg hn]
      by_cases hn2 : n ≤ vs.length
      · rw [seqState_getElem vs k n hn2, seqState_getElem vs (k + 1) n hn2]
        simp only [Option.some.injEq, Node.mk.injEq, and_true]
        by_cases hk : n ≤ k
        · rw [if_pos hk, if_pos (by omega)]
        · rw [if_neg hk, if_neg (by omega)]
      · rw [List.getElem?_eq_none (by rw [seqState_heap_length]; omega),
          List.getElem?_eq_none (by rw [seqState_heap_length]; omega)]
  · show k + 1 = _
    rfl
  · show (seqState vs k).tail = _
    rfl
  · show (seqState vs k).len - 1 = _
    show vs.length - k - 1 = vs.length - (k + 1)
    omega
end LockFreeQueue
namespace LockFreeQueue
variable {T : Type}

theorem new_seqState : (new : LockFreeQueue T) = seqState [] 0 := rfl

theorem pushList_seqState (ws vs : List T) (k : Nat) (h : k ≤ vs.length) :
    pushList (seqState vs k) ws = some (seqState (vs ++ ws) k) := by
  induction ws generalizing vs with
  | nil => simp [pushList, List.foldlM]
  | cons w ws ih =>
    show List.foldlM push (seqState vs k) (w :: ws) = _
    rw [List.foldlM_cons]
    show (push (seqState vs k) w).bind (fun q => List.foldlM push q ws) = _
    rw [push_seqState vs k w h, Option.some_bind]
    show pushList (seqState (vs ++ [w]) k) ws = _
    rw [ih (vs ++ [w]) (by simp; omega)]
    rw [List.append_cons vs w ws]

theorem popN_drain (vs : List T) (n k : Nat) (h : k + n = vs.length) :
    popN n (seqState vs k) = some ((vs.drop k).map some, seqState vs vs.length) := by
  induction n generalizing k with
  | zero =>
    have hk : k = vs.length := by omega
    rw [popN, hk, List.drop_length]
    rfl
  | succ n ih =>
    rw [popN, pop_seqState_lt vs k (by omega), Option.some_bind, ih (k + 1) (by omega)]
    rw [List.drop_eq_getElem_cons (by omega : k < vs.length)]
    simp only [List.getElem?_eq_getElem (show k < vs.length by omega), Option.map_some',
      Option.some.injEq, Prod.mk.injEq, List.map_cons, and_true]

theorem popN_past_empty (vs : List T) (m : Nat) :
    popN m (seqState vs vs.length) =
      some (List.replicate m none, seqState vs vs.length) := by
  induction m with
  | zero => rfl
  | succ m ih =>
    rw [popN, pop_seqState_end, Option.some_bind, ih]
    rfl

theorem chainFrom_seqState (vs : List T) (k : Nat) (fuel a : Nat)
    (ha : a ≤ vs.length) (hfuel : vs.length + 1 - a ≤ fuel) :
    chainFrom (seqState vs k).heap fuel a =
      some (List.range' a (vs.length + 1 - a)) := by
  induction fuel generalizing a with
  | zero => omega
  | succ fuel ih =>
    simp only [chainFrom, seqState_getElem vs k a ha]
    by_cases haL : a = vs.length
    · rw [if_pos haL, haL]
      show some [vs.length] = _
      have h1 : vs.length + 1 - vs.length = 1 := by omega
      rw [h1, List.range'_one]
    · rw [if_neg haL]
      show Option.map _ (chainFrom (seqState vs k).heap fuel (a + 1)) = _
      rw [ih (a + 1) (by omega) (by omega)]
      have h1 : vs.length + 1 - a = (vs.length - a) + 1 := by omega
      have h2 : vs.length + 1 - (a + 1) = vs.length - a := by omega
      rw [h1, h2, List.range'_succ]
      rfl

theorem chain_seqState (vs : List T) (k : Nat) (h : k ≤ vs.length) :
    chain (seqState vs k) = some (List.range' k (vs.length + 1 - k)) := by
  show chainFrom (seqState vs k).heap (seqState vs k).heap.length (seqState vs k).head = _
  rw [seqState_heap_length]
  exact chainFrom_seqState vs k (vs.length + 1) k h (by omega)

theorem count_seqState (vs : List T) (k : Nat) (h : k ≤ vs.length) :
    count (seqState vs k) = vs.length - k := by
  simp only [count, chain_seqState vs k h, List.length_range']
  omega

theorem firstElem_seqState_lt (vs : List T) (k : Nat) (h : k < vs.length) :
    firstElem (seqState vs k) = some vs[k] := by
  simp only [firstElem, chain_seqState vs k (le_of_lt h)]
  have h1 : vs.length + 1 - k = (vs.length - k - 1) + 1 + 1 := by omega
  rw [h1, List.range'_succ, List.range'_succ]
  show ((seqState vs k).heap[k + 1]?).bind Node.elem = _
  rw [seqState_getElem vs k (k + 1) (by omega), Option.some_bind]
  show (if k + 1 ≤ k then none else (vs[k + 1 - 1]?)) = _
  rw [if_neg (by omega), Nat.add_sub_cancel, List.getElem?_eq_getElem h]

theorem firstElem_seqState_end (vs : List T) :
    firstElem (seqState vs vs.length) = none := by
  simp only [firstElem, chain_seqState vs vs.length (le_refl _)]
  have h1 : vs.length + 1 - vs.length = 1 := by omega
  rw [h1, List.range'_one]

theorem invCheck_seqState (vs : List T) (k : Nat) (h : k ≤ vs.length) :
    invCheck (seqState vs k) = true := by
  simp only [invCheck, chain_seqState vs k h]
  have h1 : vs.length + 1 - k = (vs.length - k) + 1 := by omega
  rw [h1, List.range'_succ]
  simp only [Bool.and_eq_true, decide_eq_true_eq]
  refine ⟨⟨⟨⟨rfl, ?_⟩, ?_⟩, ?_⟩, ?_⟩
  · -- tail membership
    show vs.length ∈ _
    by_cases hkL : k = vs.length
    · rw [hkL]
      exact List.mem_cons_self _ _
    · refine List.mem_cons_of_mem _ ?_
      rw [List.mem_range'_1]
      omega
  · -- nodup
    rw [← List.range'_succ]
    exact List.nodup_range' _ _
  · -- sentinel payload is uninitialized
    rw [seqState_getElem vs k k h]
    show (if k ≤ k then none else (vs[k - 1]?)).isNone = true
    rw [if_pos (le_refl _)]
    rfl
  · -- every non-sentinel chain node holds a payload
    rw [List.all_eq_true]
    intro a hmem
    rw [List.mem_range'_1] at hmem
    rw [seqState_getElem vs k a (by omega)]
    show (if a ≤ k then none else (vs[a - 1]?)).isSome = true
    rw [if_neg (by omega), List.getElem?_eq_getElem (show a - 1 < vs.length by omega)]
    rfl

theorem reachable_canonical {q : LockFreeQueue T} (h : Reachable q) :
    ∃ vs k, k ≤ vs.length ∧ q = seqState vs k := by
  induction h with
  | new => exact ⟨[], 0, by simp, new_seqState⟩
  | push hr hp ih =>
    obtain ⟨vs, k, hk, rfl⟩ := ih
    rw [push_seqState vs k _ hk] at hp
    exact ⟨vs ++ [_], k, by simp; omega, (Option.some.inj hp).symm⟩
  | pop hr hp ih =>
    obtain ⟨vs, k, hk, rfl⟩ := ih
    by_cases hkL : k = vs.length
    · rw [hkL, pop_seqState_end] at hp
      simp only [Option.some.injEq, Prod.mk.injEq] at hp
      exact ⟨vs, vs.length, le_refl _, hp.2.symm⟩
    · rw [pop_seqState_lt vs k (by omega)] at hp
      simp only [Option.some.injEq, Prod.mk.injEq] at hp
      exact ⟨vs, k + 1, by omega, hp.2.symm⟩

theorem seqState_head (vs : List T) (k : Nat) : (seqState vs k).head = k := rfl

theorem seqState_tail (vs : List T) (k : Nat) : (seqState vs k).tail = vs.length := rfl

theorem seqState_len (vs : List T) (k : Nat) : (seqState vs k).len = vs.length - k := rfl

theorem pushLoop_len {fuel a : Nat} {q q' : LockFreeQueue T}
    (h : pushLoop fuel q a = some q') : q'.len = q.len + 1 := by
  induction fuel generalizing q with
  | zero => exact absurd h (by simp [pushLoop])
  | succ fuel ih =>
    simp only [pushLoop] at h
    cases hm : q.heap[q.tail]? with
    | none =>
      simp only [hm] at h
      exact Option.noConfusion h
    | some tn =>
      simp only [hm] at h
      cases hn : tn.next with
      | none =>
        simp only [hn, Option.some.injEq] at h
        rw [← h]
      | some nxt =>
        simp only [hn] at h
        have := ih h
        exact this

theorem push_len {q q' : LockFreeQueue T} {v : T} (h : push q v = some q') :
    q'.len = q.len + 1 := by
  simp only [push] at h
  have := pushLoop_len h
  exact this

end LockFreeQueue
open LockFreeQueue in
/-- C1: starting from `new()`, pushing the values `[1,1,4,5,1,4]` in order
and then popping seven times returns exactly `Some(1), Some(1), Some(4),
Some(5), Some(1), Some(4)` and finally the empty indicator `None`. -/
theorem claim1_sequential_fifo :
    ((pushList (new) [1, 1, 4, 5, 1, 4]).bind (popN 7)).map Prod.fst =
      some [some 1, some 1, some 4, some 5, some 1, some 4, none] := by
  decide

open LockFreeQueue in
/-- C2: `new()` produces exactly one sentinel node with uninitialized
payload and null next pointer, with `head` and `tail` both referencing it
(address 0) and the length counter 0; equivalently, the result is empty:
`pop` returns the empty indicator `none` (leaving the state unchanged),
`len()` returns 0 and `is_empty()` returns true. -/
theorem claim2_new_is_empty_sentinel (T : Type) :
    (new : LockFreeQueue T).heap = [Node.dummy] ∧
    (Node.dummy : Node T).elem = none ∧ (Node.dummy : Node T).next = none ∧
    (new : LockFreeQueue T).head = 0 ∧ (new : LockFreeQueue T).tail = 0 ∧
    (new : LockFreeQueue T).len = 0 ∧
    pop (new : LockFreeQueue T) = some (none, new) ∧
    length (new : LockFreeQueue T) = 0 ∧
    is_empty (new : LockFreeQueue T) = true :=
  ⟨rfl, rfl, rfl, rfl, rfl, rfl, rfl, rfl, rfl⟩

open LockFreeQueue in
/-- C3: on every state reachable by a sequence of completed operations,
`pop` always returns a result (it never blocks and never fails in any
other way); the result is the payload of the logically first element
(the node right after the sentinel) when the queue is non-empty, and is
the empty indicator `none` exactly when the queue is empty, i.e. when
`head` equals `tail` and the head node's next pointer is null. -/
theorem claim3_pop_contract {T : Type} (q : LockFreeQueue T) (h : Reachable q) :
    ∃ r q', pop q = some (r, q') ∧
      (r = none ↔ q.head = q.tail ∧ (q.heap[q.head]?).map Node.next = some none) ∧
      r = firstElem q := by
  obtain ⟨vs, k, hk, rfl⟩ := reachable_canonical h
  by_cases hkL : k = vs.length
  · subst hkL
    refine ⟨none, seqState vs vs.length, pop_seqState_end vs, ?_,
      (firstElem_seqState_end vs).symm⟩
    constructor
    · intro _
      refine ⟨rfl, ?_⟩
      rw [seqState_head, seqState_getElem vs vs.length vs.length (le_refl _)]
      simp
    · intro _
      rfl
  · have hlt : k < vs.length := by omega
    refine ⟨some vs[k], seqState vs (k + 1), ?_, ?_, ?_⟩
    · rw [pop_seqState_lt vs k hlt, List.getElem?_eq_getElem hlt]
    · constructor
      · intro hc
        exact absurd hc (by simp)
      · intro hc
        have h1 := hc.1
        rw [seqState_head, seqState_tail] at h1
        omega
    · rw [firstElem_seqState_lt vs k hlt]

open LockFreeQueue in
/-- C3 witness: the contract instantiated at the concrete reachable state
`new()`. -/
theorem claim3_pop_contract_witness :
    ∃ r q', pop (new : LockFreeQueue Nat) = some (r, q') ∧
      (r = none ↔ (new : LockFreeQueue Nat).head = (new : LockFreeQueue Nat).tail ∧
        ((new : LockFreeQueue Nat).heap[(new : LockFreeQueue Nat).head]?).map Node.next
          = some none) ∧
      r = firstElem (new : LockFreeQueue Nat) :=
  claim3_pop_contract new Reachable.new

open LockFreeQueue in
/-- C4: every state reachable from `new()` by any sequence of `push` and
`pop` calls satisfies the structural invariant: the chain reachable from
`head` is a valid, finite, acyclic singly-linked list of distinct nodes;
`tail` lies on that chain (so `head` structurally precedes or equals
`tail`); and exactly one sentinel (node without a valid payload) exists on
the chain, namely the node `head` references — so in particular every
operation, applied in a reachable state, preserves the invariant. -/
theorem claim4_structural_invariant {T : Type} (q : LockFreeQueue T)
    (h : Reachable q) : invCheck q = true := by
  obtain ⟨vs, k, hk, rfl⟩ := reachable_canonical h
  exact invCheck_seqState vs k hk

open LockFreeQueue in
/-- C4 witness: the invariant holds at the concrete reachable state
`new()`. -/
theorem claim4_structural_invariant_witness :
    invCheck (new : LockFreeQueue Nat) = true :=
  claim4_structural_invariant new Reachable.new

open LockFreeQueue in
/-- C5: the length counter is incremented by exactly 1 by every successful
push-link and decremented by exactly 1 by every successful pop-unlink
(and untouched by a pop that reports empty); consequently, in every
sequential execution (any sequence of completed push/pop calls, i.e. on
every reachable state) `len()` equals the number of elements currently in
the queue, and `is_empty()` agrees with whether popping yields zero
elements. -/
theorem claim5_length_counter {T : Type} :
    (∀ (q q' : LockFreeQueue T) (v : T), push q v = some q' → q'.len = q.len + 1) ∧
    (∀ (q q' : LockFreeQueue T) (v : T), Reachable q → pop q = some (some v, q') →
      q'.len + 1 = q.len) ∧
    (∀ (q q' : LockFreeQueue T), Reachable q → pop q = some (none, q') → q'.len = q.len) ∧
    (∀ q : LockFreeQueue T, Reachable q → length q = count q) ∧
    (∀ q : LockFreeQueue T, Reachable q →
      (is_empty q = true ↔ pop q = some (none, q))) := by
  refine ⟨fun q q' v hp => push_len hp, ?_, ?_, ?_, ?_⟩
  · intro q q' v hr hp
    obtain ⟨vs, k, hk, rfl⟩ := reachable_canonical hr
    by_cases hkL : k = vs.length
    · rw [hkL, pop_seqState_end] at hp
      simp at hp
    · rw [pop_seqState_lt vs k (by omega)] at hp
      simp only [Option.some.injEq, Prod.mk.injEq] at hp
      obtain ⟨-, rfl⟩ := hp
      rw [seqState_len, seqState_len]
      omega
  · intro q q' hr hp
    obtain ⟨vs, k, hk, rfl⟩ := reachable_canonical hr
    by_cases hkL : k = vs.length
    · rw [hkL, pop_seqState_end] at hp
      simp only [Option.some.injEq, Prod.mk.injEq] at hp
      rw [← hp.2, hkL]
    · rw [pop_seqState_lt vs k (by omega)] at hp
      simp [List.getElem?_eq_getElem (show k < vs.length by omega)] at hp
  · intro q hr
    obtain ⟨vs, k, hk, rfl⟩ := reachable_canonical hr
    rw [count_seqState vs k hk]
    exact seqState_len vs k
  · intro q hr
    obtain ⟨vs, k, hk, rfl⟩ := reachable_canonical hr
    by_cases hkL : k = vs.length
    · subst hkL
      constructor
      · intro _
        exact pop_seqState_end vs
      · intro _
        simp [is_empty, length, seqState_len]
    · have hlt : k < vs.length := by omega
      constructor
      · intro he
        simp [is_empty, length, seqState_len] at he
        omega
      · intro hp
        rw [pop_seqState_lt vs k hlt] at hp
        simp [List.getElem?_eq_getElem hlt] at hp

open LockFreeQueue in
/-- C5 witness: the counter facts instantiated at concrete states:
pushing 7 onto the empty queue increments `len` to 1, popping it
decrements `len` back, a pop on the empty queue leaves `len` unchanged,
`len` equals the element count, and `is_empty` matches the pop result. -/
theorem claim5_length_counter_witness :
    (seqState [7] 0).len = (new : LockFreeQueue Nat).len + 1 ∧
    (seqState [7] 1).len + 1 = (seqState ([7] : List Nat) 0).len ∧
    (new : LockFreeQueue Nat).len = (new : LockFreeQueue Nat).len ∧
    length (seqState ([7] : List Nat) 0) = count (seqState ([7] : List Nat) 0) ∧
    (is_empty (new : LockFreeQueue Nat) = true ↔
      pop (new : LockFreeQueue Nat) = some (none, new)) :=
  ⟨claim5_length_counter.1 _ _ 7 (by decide),
   claim5_length_counter.2.1 _ _ 7 (Reachable.push Reachable.new
     (show push new 7 = some (seqState [7] 0) by decide)) (by decide),
   claim5_length_counter.2.2.1 _ _ Reachable.new (by decide),
   claim5_length_counter.2.2.2.1 _ (Reachable.push Reachable.new
     (show push new 7 = some (seqState [7] 0) by decide)),
   claim5_length_counter.2.2.2.2 _ Reachable.new⟩

open LockFreeQueue in
/-- C6: for every queue state, `is_empty()` returns true exactly when
`len()` returns 0; indeed `is_empty` is definitionally `len() == 0`.
Both are pure reads: in the embedding they are plain functions of the
state and return no modified state. -/
theorem claim6_is_empty_iff_len_zero {T : Type} (q : LockFreeQueue T) :
    is_empty q = (length q == 0) ∧ (is_empty q = true ↔ length q = 0) := by
  refine ⟨rfl, ?_⟩
  simp [is_empty, length]

open LockFreeQueue in
/-- C7: for every list of pushed values and every `m`: pushing all values
onto a new queue and popping them all succeeds and returns exactly the
pushed values in order; the resulting state is empty (`is_empty` is true)
and `m` further pops, for any `m`, all return the empty indicator and
leave the state unchanged — no spurious element ever appears. -/
theorem claim7_drained_stays_empty {T : Type} (vs : List T) (m : Nat) :
    ∃ q qd, pushList (new) vs = some q ∧
      popN vs.length q = some (vs.map some, qd) ∧
      is_empty qd = true ∧
      popN m qd = some (List.replicate m none, qd) := by
  refine ⟨seqState vs 0, seqState vs vs.length, ?_, ?_, ?_, popN_past_empty vs m⟩
  · rw [new_seqState, pushList_seqState vs [] 0 (by simp)]
    simp
  · have h := popN_drain vs vs.length 0 (by omega)
    simpa using h
  · simp [is_empty, length, seqState_len]

open LockFreeQueue in
/-- C9: on every reachable state, `pop` never performs an undefined read
(a `none` result of the embedded `pop` encodes exactly the undefined
memory accesses: reading a dangling pointer or an uninitialized payload,
and the embedding reads a payload only in the branch where the head CAS
has succeeded).  When a value is returned, the slot read is the one right
after the current sentinel (`q.head + 1`), it held an initialized payload
before the call, and it is the new sentinel whose payload is consumed
afterwards (so it can never be read again); every slot at or before the
sentinel — including the never-initialized slot 0 — already has no valid
payload and is not read. -/
theorem claim9_payload_read_discipline {T : Type} (q : LockFreeQueue T)
    (h : Reachable q) :
    ∃ r q', pop q = some (r, q') ∧
      (∀ v, r = some v →
        q'.head = q.head + 1 ∧
        (q.heap[q'.head]?).map Node.elem = some (some v) ∧
        (q'.heap[q'.head]?).map Node.elem = some none) ∧
      (∀ a, a ≤ q.head → (q.heap[a]?).map Node.elem = some none) := by
  obtain ⟨vs, k, hk, rfl⟩ := reachable_canonical h
  by_cases hkL : k = vs.length
  · subst hkL
    refine ⟨none, seqState vs vs.length, pop_seqState_end vs, ?_, ?_⟩
    · intro v hv
      exact absurd hv (by simp)
    · intro a ha
      rw [seqState_head] at ha
      rw [seqState_getElem vs vs.length a (by omega)]
      simp [if_pos ha]
  · have hlt : k < vs.length := by omega
    refine ⟨some vs[k], seqState vs (k + 1), ?_, ?_, ?_⟩
    · rw [pop_seqState_lt vs k hlt, List.getElem?_eq_getElem hlt]
    · intro v hv
      obtain rfl : vs[k] = v := Option.some.inj hv
      refine ⟨rfl, ?_, ?_⟩
      · rw [seqState_head, seqState_getElem vs k (k + 1) (by omega)]
        simp only [Option.map_some']
        rw [if_neg (by omega : ¬ k + 1 ≤ k), Nat.add_sub_cancel,
          List.getElem?_eq_getElem hlt]
      · rw [seqState_head, seqState_getElem vs (k + 1) (k + 1) (by omega)]
        simp [if_pos (le_refl (k + 1))]
    · intro a ha
      rw [seqState_head] at ha
      rw [seqState_getElem vs k a (by omega)]
      simp [if_pos ha]

open LockFreeQueue in
/-- C9 witness: the read discipline instantiated at the concrete
reachable state obtained by pushing 7 onto a new queue. -/
theorem claim9_payload_read_discipline_witness :
    ∃ r q', pop (seqState ([7] : List Nat) 0) = some (r, q') ∧
      (∀ v, r = some v →
        q'.head = (seqState ([7] : List Nat) 0).head + 1 ∧
        ((seqState ([7] : List Nat) 0).heap[q'.head]?).map Node.elem = some (some v) ∧
        (q'.heap[q'.head]?).map Node.elem = some none) ∧
      (∀ a, a ≤ (seqState ([7] : List Nat) 0).head →
        ((seqState ([7] : List Nat) 0).heap[a]?).map Node.elem = some none) :=
  claim9_payload_read_discipline _ (Reachable.push Reachable.new
    (show push new 7 = some (seqState [7] 0) by decide))

open LockFreeQueue in
/-- C10: a `pop` on an empty queue — `head` equal to `tail` and the head
node's next pointer null — returns the empty indicator and returns the
very same state: `head`, `tail`, the node chain and the length counter
are all unchanged. -/
theorem claim10_pop_empty_frame {T : Type} (q : LockFreeQueue T) (m : Node T)
    (h1 : q.heap[q.head]? = some m) (h2 : q.head = q.tail) (h3 : m.next = none) :
    pop q = some (none, q) :=
  pop_empty h1 h2 h3

open LockFreeQueue in
/-- C10 witness: instantiated at the concrete empty queue `new()`. -/
theorem claim10_pop_empty_frame_witness :
    pop (new : LockFreeQueue Nat) = some (none, new) :=
  claim10_pop_empty_frame new Node.dummy rfl rfl rfl
